import Mathlib

/-!
Verification of the Monte Carlo dashboard simulation core.

The Python backend (src/backend/simulations) is shallowly embedded below.
Machine floats are modelled by exact numbers: natural numbers and rationals
where the code computes with integers or with purely rational float
arithmetic, and real numbers where the code uses transcendental functions
(exp, cos, sqrt, the normal CDF).  Randomness is modelled by passing the
drawn values (points, shocks, sample means, uniform draws) as explicit
inputs, since every claim under scrutiny is a property that holds for all
draws.
-/

namespace MonteCarloDashboard

/-! ## ConvergenceTracker downsampling (BaseSimulation.get_convergence_data) -/

/-- Embedding of numpy.linspace(0, stop, num, dtype=int): num evenly spaced
values from 0 to stop inclusive, truncated to integers.  numpy returns the
empty array for num = 0 and the single start value for num = 1. -/
def linspaceIdx (stop : ℕ) (num : ℕ) : List ℕ :=
  match num with
  | 0 => []
  | 1 => [0]
  | Nat.succ (Nat.succ m) =>
      (List.range (m + 2)).map (fun k => k * stop / (m + 1))

/-- BaseSimulation.get_convergence_data: return the history as is when its
length is at most max_points, otherwise the points at the linspace indices. -/
def get_convergence_data {α : Type} [Inhabited α]
    (history : List α) (max_points : ℕ) : List α :=
  if history.length ≤ max_points then history
  else (linspaceIdx (history.length - 1) max_points).map
    (fun i => history.getD i default)

theorem linspaceIdx_length (stop num : ℕ) :
    (linspaceIdx stop num).length = num := by
  match num with
  | 0 => rfl
  | 1 => rfl
  | Nat.succ (Nat.succ m) => simp [linspaceIdx]

/-! ## Effective sample size (MarkovChain._calculate_ess) -/

/-- numpy.mean of a list of rationals (empty list gives 0 here; every call
site below passes a nonempty list). -/
def listMean (l : List ℚ) : ℚ := l.sum / l.length

/-- numpy.var of a list: population variance, mean of squared deviations. -/
def listVar (l : List ℚ) : ℚ :=
  listMean (l.map (fun x => (x - listMean l) ^ 2))

/-- Sample autocorrelation at a positive lag, as in _calculate_ess:
mean((samples[:-lag] - mean) * (samples[lag:] - mean)) / var. -/
def autocorrAt (samples : List ℚ) (m v : ℚ) (lag : ℕ) : ℚ :=
  listMean ((samples.zip (samples.drop lag)).map
    (fun p => (p.1 - m) * (p.2 - m))) / v

/-- The autocorrelation values collected at lags 1, 2, ... by the loop in
_calculate_ess (the lag-0 entry of the Python list is the constant 1.0 and
is folded into the 1 + 2 * sum below).  The loop appends the value at each
lag and breaks right after appending the first value whose absolute value
is below 0.05.  The fuel argument is the number of positive lags the Python
range still allows. -/
def acfTail (samples : List ℚ) (m v : ℚ) : ℕ → ℕ → List ℚ
  | _, 0 => []
  | lag, fuel + 1 =>
      let c := autocorrAt samples m v lag
      if |c| < 1 / 20 then [c]
      else c :: acfTail samples m v (lag + 1) fuel

/-- MarkovChain._calculate_ess with the default max_lag = None:
effective sample size from the autocorrelation function. -/
def calculate_ess (samples : List ℚ) : ℚ :=
  let n := samples.length
  if n < 10 then n
  else
    let max_lag := min (n / 4) 1000
    let m := listMean samples
    let v := listVar samples
    if v = 0 then 1
    else
      let acf := acfTail samples m v 1 (max_lag - 1)
      let sum_acf := 1 + 2 * acf.sum
      let ess := if 0 < sum_acf then (n : ℚ) / sum_acf else (n : ℚ)
      min ess n

/-- The effective-sample-size computation as the specification words it:
identical autocorrelation loop, early stopping, 1 + 2 * sum, n / sum when
the sum is positive and n otherwise, clamped to n, with the n < 10 early
return, but with no special case for zero variance. -/
def essSpec (samples : List ℚ) : ℚ :=
  let n := samples.length
  if n < 10 then n
  else
    let max_lag := min (n / 4) 1000
    let m := listMean samples
    let v := listVar samples
    let acf := acfTail samples m v 1 (max_lag - 1)
    let sum_acf := 1 + 2 * acf.sum
    let ess := if 0 < sum_acf then (n : ℚ) / sum_acf else (n : ℚ)
    min ess n

/-! ## Theorems for C7 (downsampling) -/

/-- C7 (amended): downsampling returns the history unchanged when its length
is at most max_points; otherwise it returns the points at the max_points
integer linspace indices across 0 .. length - 1; the result length never
exceeds max_points; and whenever max_points is at least 2 (and the history
is nonempty) the first and the last original point are present in the
output.  For max_points 0 or 1 the original claim fails, see the
counterexample. -/
theorem C7_downsample_amended {α : Type} [Inhabited α] :
    (∀ (h : List α) (mp : ℕ), h.length ≤ mp →
        get_convergence_data h mp = h) ∧
    (∀ (h : List α) (mp : ℕ), (get_convergence_data h mp).length ≤ mp) ∧
    (∀ (h : List α) (mp : ℕ), mp < h.length →
        get_convergence_data h mp =
          (linspaceIdx (h.length - 1) mp).map (fun i => h.getD i default)) ∧
    (∀ (h : List α) (mp : ℕ), 2 ≤ mp → h ≠ [] →
        h.getD 0 default ∈ get_convergence_data h mp ∧
        h.getD (h.length - 1) default ∈ get_convergence_data h mp) := by
  refine ⟨fun h mp hle => ?_, fun h mp => ?_, fun h mp hlt => ?_,
    fun h mp hmp hne => ?_⟩
  · simp [get_convergence_data, hle]
  · by_cases hle : h.length ≤ mp
    · simp [get_convergence_data, hle]
    · simp [get_convergence_data, hle, linspaceIdx_length]
  · simp [get_convergence_data, Nat.not_le.mpr hlt]
  · by_cases hle : h.length ≤ mp
    · have h0 : 0 < h.length := List.length_pos.mpr hne
      have h1 : h.length - 1 < h.length := Nat.sub_lt h0 Nat.one_pos
      constructor
      · rw [List.getD_eq_getElem _ _ h0]
        simp only [get_convergence_data, if_pos hle]
        exact List.getElem_mem h0
      · rw [List.getD_eq_getElem _ _ h1]
        simp only [get_convergence_data, if_pos hle]
        exact List.getElem_mem h1
    · obtain ⟨m, rfl⟩ : ∃ m, mp = m + 2 :=
        ⟨mp - 2, (Nat.sub_add_cancel hmp).symm⟩
      simp only [get_convergence_data, if_neg hle, linspaceIdx, List.map_map]
      constructor
      · exact List.mem_map.mpr ⟨0, by simp, by simp [Function.comp]⟩
      · refine List.mem_map.mpr ⟨m + 1, by simp, ?_⟩
        simp [Function.comp, Nat.mul_div_cancel_left _ (Nat.succ_pos m)]

/-- C7 counterexample: with a two-point history and max_points = 1 the
downsampled output is just the first point, so the last original point is
not present, refuting the for-every-max_points claim. -/
theorem C7_downsample_counterexample :
    get_convergence_data [0, 1] 1 = [0] ∧
    (1 : ℕ) ∉ get_convergence_data [0, 1] 1 := by decide

/-- C7 witness: the amended theorem applied at concrete inputs. -/
theorem C7_downsample_witness :
    get_convergence_data [3, 7] 5 = [3, 7] ∧
    get_convergence_data [(5 : ℕ), 6, 7, 8] 2 =
      (linspaceIdx 3 2).map (fun i => [5, 6, 7, 8].getD i default) ∧
    (5 : ℕ) ∈ get_convergence_data [5, 6, 7, 8] 2 ∧
    (8 : ℕ) ∈ get_convergence_data [5, 6, 7, 8] 2 := by
  refine ⟨C7_downsample_amended.1 _ _ (by decide),
    C7_downsample_amended.2.2.1 _ _ (by decide), ?_, ?_⟩
  · exact (C7_downsample_amended.2.2.2 [5, 6, 7, 8] 2 (by decide)
      (by decide)).1
  · exact (C7_downsample_amended.2.2.2 [5, 6, 7, 8] 2 (by decide)
      (by decide)).2

/-! ## Theorems for C2 (effective sample size) -/

/-- C2 (amended): for a post-burn-in pool of size n, the ESS computation
returns n unchanged when n < 10; when the population variance of the pool
is nonzero it agrees exactly with the described autocorrelation algorithm
(lags 1, 2, ... below max_lag = min(n / 4, 1000) with early stopping at the
first absolute autocorrelation below 0.05, sum = 1 + 2 * accumulated sum,
n / sum if the sum is positive and n otherwise, clamped to n); when n is at
least 10 and the variance is zero it returns 1 instead; and the result
never exceeds n. -/
theorem C2_ess_amended :
    (∀ samples : List ℚ, listVar samples ≠ 0 →
        calculate_ess samples = essSpec samples) ∧
    (∀ samples : List ℚ, samples.length < 10 →
        calculate_ess samples = samples.length) ∧
    (∀ samples : List ℚ, 10 ≤ samples.length → listVar samples = 0 →
        calculate_ess samples = 1) ∧
    (∀ samples : List ℚ, calculate_ess samples ≤ samples.length) := by
  refine ⟨fun s hv => ?_, fun s hn => ?_, fun s hn hv => ?_, fun s => ?_⟩
  · by_cases hn : s.length < 10
    · simp [calculate_ess, essSpec, hn]
    · simp [calculate_ess, essSpec, hn, hv]
  · simp [calculate_ess, hn]
  · simp [calculate_ess, Nat.not_lt.mpr hn, hv]
  · unfold calculate_ess
    by_cases hn : s.length < 10
    · simp [hn]
    · by_cases hv : listVar s = 0
      · simp only [hn, if_false, hv, if_true]
        have : (10 : ℚ) ≤ s.length := by exact_mod_cast Nat.not_lt.mp hn
        linarith
      · simp only [hn, if_false, hv, if_true]
        exact min_le_right _ _

/-- C2 counterexample: on ten identical samples (variance zero, n = 10 not
below 10) the code returns 1 while the claimed algorithm returns n = 10. -/
theorem C2_ess_counterexample :
    calculate_ess (List.replicate 10 0) = 1 ∧
    essSpec (List.replicate 10 0) = 10 ∧
    calculate_ess (List.replicate 10 0) ≠ essSpec (List.replicate 10 0) := by
  refine ⟨?_, ?_, ?_⟩ <;>
    norm_num [calculate_ess, essSpec, listVar, listMean, acfTail, autocorrAt]

/-- C2 witness: the amended theorem applied at concrete pools. -/
theorem C2_ess_witness :
    calculate_ess [0, 1, 0, 1, 0, 1, 0, 1, 0, 1] =
      essSpec [0, 1, 0, 1, 0, 1, 0, 1, 0, 1] ∧
    calculate_ess [4, 5, 6] = 3 ∧
    calculate_ess (List.replicate 12 (7 : ℚ)) = 1 := by
  refine ⟨C2_ess_amended.1 _ (by norm_num [listVar, listMean]), ?_, ?_⟩
  · simpa using C2_ess_amended.2.1 [4, 5, 6] (by norm_num)
  · exact C2_ess_amended.2.2.1 _ (by simp)
      (by norm_num [listVar, listMean, List.replicate])

/-! ## SimulationEngine (BaseSimulation.run)

The engine treats the concrete estimator through the abstract contract
simulate_batch / calculate_statistics / get_visualization_data, so the
estimator is embedded as an oracle: a batch-update function on the opaque
accumulator type together with the two statistics projections and the
visualization payload.  Randomness is inside the oracle.  The external
stop() request is a schedule of booleans, observed at the cooperative
scheduling point between batches. -/

structure EngineConfig where
  n_simulations : ℕ
  batch_size : ℕ
  update_frequency : ℕ
deriving DecidableEq

/-- BaseSimulation.__init__: the batch size is capped at the trial count. -/
def mkEngineConfig (n_simulations batch_size update_frequency : ℕ) :
    EngineConfig :=
  { n_simulations := n_simulations
    batch_size := min batch_size n_simulations
    update_frequency := update_frequency }

/-- The abstract per-algorithm contract used by BaseSimulation.run.
simulate_batch folds the merge of update_results into the accumulator;
estimate and std_error are the two statistics recorded in the convergence
history. -/
structure SimOracle (σ V : Type) where
  simulate_batch : ℕ → σ → σ
  estimate : σ → ℚ
  std_error : σ → ℚ
  visualization : σ → V

/-- The dictionary yielded by BaseSimulation.run at an update boundary. -/
structure ProgressSnapshot (V : Type) where
  iteration : ℕ
  progress : ℚ
  estimate : ℚ
  std_error : ℚ
  visualization : V
  convergence_history : List (ℕ × ℚ × ℚ)

structure EngineState (σ V : Type) where
  current_iteration : ℕ
  is_running : Bool
  accum : σ
  convergence_history : List (ℕ × ℚ × ℚ)
  emitted : List (ProgressSnapshot V)

def initialState {σ V : Type} (a0 : σ) : EngineState σ V :=
  { current_iteration := 0
    is_running := true
    accum := a0
    convergence_history := []
    emitted := [] }

/-- The update check of BaseSimulation.run: current_iteration is a multiple
of update_frequency or equals n_simulations. -/
def emitCondition (cfg : EngineConfig) (it : ℕ) : Prop :=
  it % cfg.update_frequency = 0 ∨ it = cfg.n_simulations

instance (cfg : EngineConfig) (it : ℕ) : Decidable (emitCondition cfg it) := by
  unfold emitCondition
  infer_instance

/-- One iteration of the while loop in BaseSimulation.run: batch size
min(batch_size, remaining), simulate_batch plus update_results, counter
advance, conditional snapshot emission, then the asyncio.sleep(0) boundary
at which a pending stop request clears the running flag. -/
def engineStep {σ V : Type} (cfg : EngineConfig) (sim : SimOracle σ V)
    (stop_request : Bool) (s : EngineState σ V) : EngineState σ V :=
  let n := min cfg.batch_size (cfg.n_simulations - s.current_iteration)
  let acc := sim.simulate_batch n s.accum
  let it := s.current_iteration + n
  if emitCondition cfg it then
    let e := sim.estimate acc
    let se := sim.std_error acc
    let hist := s.convergence_history ++ [(it, e, se)]
    { current_iteration := it
      is_running := s.is_running && !stop_request
      accum := acc
      convergence_history := hist
      emitted := s.emitted ++
        [{ iteration := it
           progress := (it : ℚ) / (cfg.n_simulations : ℚ)
           estimate := e
           std_error := se
           visualization := sim.visualization acc
           convergence_history := get_convergence_data hist 100 }] }
  else
    { current_iteration := it
      is_running := s.is_running && !stop_request
      accum := acc
      convergence_history := s.convergence_history
      emitted := s.emitted }

/-- The state of BaseSimulation.run after k iterations of the while loop
(the loop body runs only while current_iteration < n_simulations and the
running flag is set). -/
def engineRun {σ V : Type} (cfg : EngineConfig) (sim : SimOracle σ V)
    (stops : ℕ → Bool) (a0 : σ) : ℕ → EngineState σ V
  | 0 => initialState a0
  | k + 1 =>
      let s := engineRun cfg sim stops a0 k
      if s.current_iteration < cfg.n_simulations ∧ s.is_running = true then
        engineStep cfg sim (stops k) s
      else s

/-- C1: in every run of the engine loop, each executed loop step advances
the iteration counter by min(remaining, batch_size), and exactly when the
updated count is a multiple of the update frequency or equals the total
count the step appends the point (iteration, estimate, std_error) of the
freshly computed statistics to the convergence history and emits one
ProgressSnapshot carrying those statistics, the downsampled history and the
visualization payload; at any other step, and whenever the loop guard
fails, the history and the emitted snapshots are unchanged. -/
theorem C1_engine_loop {σ V : Type} (cfg : EngineConfig) (sim : SimOracle σ V)
    (stops : ℕ → Bool) (a0 : σ) (k : ℕ) :
    ((engineRun cfg sim stops a0 k).current_iteration < cfg.n_simulations ∧
        (engineRun cfg sim stops a0 k).is_running = true →
      engineRun cfg sim stops a0 (k + 1) =
        engineStep cfg sim (stops k) (engineRun cfg sim stops a0 k) ∧
      (engineRun cfg sim stops a0 (k + 1)).current_iteration =
        (engineRun cfg sim stops a0 k).current_iteration +
          min cfg.batch_size
            (cfg.n_simulations -
              (engineRun cfg sim stops a0 k).current_iteration) ∧
      (engineRun cfg sim stops a0 (k + 1)).accum =
        sim.simulate_batch
          (min cfg.batch_size
            (cfg.n_simulations -
              (engineRun cfg sim stops a0 k).current_iteration))
          (engineRun cfg sim stops a0 k).accum ∧
      (emitCondition cfg
          ((engineRun cfg sim stops a0 k).current_iteration +
            min cfg.batch_size
              (cfg.n_simulations -
                (engineRun cfg sim stops a0 k).current_iteration)) →
        (engineRun cfg sim stops a0 (k + 1)).convergence_history =
          (engineRun cfg sim stops a0 k).convergence_history ++
            [((engineRun cfg sim stops a0 (k + 1)).current_iteration,
              sim.estimate (engineRun cfg sim stops a0 (k + 1)).accum,
              sim.std_error (engineRun cfg sim stops a0 (k + 1)).accum)] ∧
        (engineRun cfg sim stops a0 (k + 1)).emitted =
          (engineRun cfg sim stops a0 k).emitted ++
            [{ iteration := (engineRun cfg sim stops a0 (k + 1)).current_iteration
               progress :=
                 ((engineRun cfg sim stops a0 (k + 1)).current_iteration : ℚ) /
                   (cfg.n_simulations : ℚ)
               estimate := sim.estimate (engineRun cfg sim stops a0 (k + 1)).accum
               std_error := sim.std_error (engineRun cfg sim stops a0 (k + 1)).accum
               visualization :=
                 sim.visualization (engineRun cfg sim stops a0 (k + 1)).accum
               convergence_history :=
                 get_convergence_data
                   (engineRun cfg sim stops a0 (k + 1)).convergence_history
                   100 }]) ∧
      (¬ emitCondition cfg
          ((engineRun cfg sim stops a0 k).current_iteration +
            min cfg.batch_size
              (cfg.n_simulations -
                (engineRun cfg sim stops a0 k).current_iteration)) →
        (engineRun cfg sim stops a0 (k + 1)).convergence_history =
          (engineRun cfg sim stops a0 k).convergence_history ∧
        (engineRun cfg sim stops a0 (k + 1)).emitted =
          (engineRun cfg sim stops a0 k).emitted)) ∧
    (¬ ((engineRun cfg sim stops a0 k).current_iteration < cfg.n_simulations ∧
        (engineRun cfg sim stops a0 k).is_running = true) →
      engineRun cfg sim stops a0 (k + 1) = engineRun cfg sim stops a0 k) := by
  constructor
  · intro hguard
    have hstep : engineRun cfg sim stops a0 (k + 1) =
        engineStep cfg sim (stops k) (engineRun cfg sim stops a0 k) := by
      rw [engineRun, if_pos hguard]
    refine ⟨hstep, ?_⟩
    rw [hstep]
    unfold engineStep
    by_cases hemit : emitCondition cfg
        ((engineRun cfg sim stops a0 k).current_iteration +
          min cfg.batch_size
            (cfg.n_simulations -
              (engineRun cfg sim stops a0 k).current_iteration))
    · simp [hemit]
    · simp [hemit]
  · intro hguard
    rw [engineRun, if_neg hguard]

/-- A concrete estimator oracle for witnesses: the accumulator counts the
trials, the estimate is that count and the standard error is zero. -/
def countingSim : SimOracle ℕ Unit :=
  { simulate_batch := fun n a => a + n
    estimate := fun a => (a : ℚ)
    std_error := fun _ => 0
    visualization := fun _ => () }

def witnessConfig : EngineConfig := mkEngineConfig 4 2 2

def noStops : ℕ → Bool := fun _ => false

/-- C1 witness: the loop theorem applied to a concrete four-trial run with
batch size two and update frequency two, at the first loop step. -/
theorem C1_engine_loop_witness :
    (engineRun witnessConfig countingSim noStops 0 1).current_iteration =
      (engineRun witnessConfig countingSim noStops 0 0).current_iteration +
        min witnessConfig.batch_size
          (witnessConfig.n_simulations -
            (engineRun witnessConfig countingSim noStops 0 0).current_iteration) ∧
    (engineRun witnessConfig countingSim noStops 0 1).convergence_history =
      (engineRun witnessConfig countingSim noStops 0 0).convergence_history ++
        [((engineRun witnessConfig countingSim noStops 0 1).current_iteration,
          countingSim.estimate (engineRun witnessConfig countingSim noStops 0 1).accum,
          countingSim.std_error (engineRun witnessConfig countingSim noStops 0 1).accum)] := by
  have h := (C1_engine_loop witnessConfig countingSim noStops 0 0).1
    ⟨by decide, rfl⟩
  exact ⟨h.2.1, (h.2.2.2.1 (by decide)).1⟩

/-! ## Metropolis-Hastings chain sampler (MarkovChain) -/

inductive DistributionType
  | normal | gamma | beta | bimodal | cauchy | exponential
deriving DecidableEq

/-- The six unnormalized target densities of MarkovChain.__init__. -/
noncomputable def target_density : DistributionType → ℝ → ℝ
  | .normal, x => Real.exp (-0.5 * x ^ 2)
  | .gamma, x => if 0 < x then x * Real.exp (-x) else 0
  | .beta, x => if 0 < x ∧ x < 1 then x ^ 2 * (1 - x) ^ 2 * 30 else 0
  | .bimodal, x =>
      0.5 * Real.exp (-0.5 * (x - 2) ^ 2) + 0.5 * Real.exp (-0.5 * (x + 2) ^ 2)
  | .cauchy, x => 1 / (Real.pi * (1 + x ^ 2))
  | .exponential, x => if 0 < x then Real.exp (-x) else 0

/-- MarkovChain.__init__ inflates the requested trial count by the burn-in
length before handing it to BaseSimulation. -/
def mh_adjusted_n_simulations (n_simulations burn_in : ℕ) : ℕ :=
  n_simulations + burn_in

/-- The two random draws consumed by one Metropolis-Hastings step: the
random-walk proposal increment np.random.normal(0, step_size) and the
uniform acceptance draw np.random.random(). -/
structure MHDraw where
  noise : ℝ
  u : ℝ

/-- One iteration of the loop in MarkovChain.simulate_batch: propose
current + noise, compute the acceptance ratio (the proposed-over-current
density ratio when the current density is positive, otherwise 1 when the
proposed density is positive and 0 when it is not), and accept exactly when
the uniform draw is below the ratio.  Returns the new chain state and the
acceptance flag. -/
noncomputable def mhStepRun (target : ℝ → ℝ) (current : ℝ) (d : MHDraw) :
    ℝ × Bool :=
  let proposed := current + d.noise
  let current_density := target current
  let proposed_density := target proposed
  let rho :=
    if 0 < current_density then proposed_density / current_density
    else if 0 < proposed_density then 1 else 0
  if d.u < rho then (proposed, true) else (current, false)

structure MHLoopState where
  current_state : ℝ
  samples : List ℝ
  accepted : ℕ
  states : List ℝ

/-- The loop body of MarkovChain.simulate_batch: after the accept/reject
decision the (possibly unchanged) state is appended to the trace list
unconditionally, and to the sample pool exactly when the global iteration
counter (which BaseSimulation.run only advances after the whole batch, so
it is the batch-start value throughout) is at least the burn-in length. -/
noncomputable def mhBatchFold (target : ℝ → ℝ)
    (burn_in current_iteration : ℕ) (st : MHLoopState) (d : MHDraw) :
    MHLoopState :=
  let r := mhStepRun target st.current_state d
  let st1 : MHLoopState :=
    { current_state := r.1
      samples := st.samples
      accepted := st.accepted + (if r.2 then 1 else 0)
      states := st.states ++ [r.1] }
  if burn_in ≤ current_iteration then
    { st1 with samples := st1.samples ++ [r.1] }
  else st1

structure MHBatch where
  samples : List ℝ
  accepted : ℕ
  total_proposed : ℕ
  states : List ℝ

/-- MarkovChain.simulate_batch over the list of per-step random draws. -/
noncomputable def mh_simulate_batch (target : ℝ → ℝ)
    (burn_in current_iteration : ℕ) (initial : ℝ) (draws : List MHDraw) :
    MHBatch :=
  let fin := draws.foldl (mhBatchFold target burn_in current_iteration)
    { current_state := initial, samples := [], accepted := 0, states := [] }
  { samples := fin.samples
    accepted := fin.accepted
    total_proposed := draws.length
    states := fin.states }

lemma mhBatchFold_states_length (target : ℝ → ℝ) (b p : ℕ)
    (draws : List MHDraw) (st : MHLoopState) :
    ((draws.foldl (mhBatchFold target b p) st).states).length =
      st.states.length + draws.length := by
  induction draws generalizing st with
  | nil => simp
  | cons d rest ih =>
      rw [List.foldl_cons, ih]
      unfold mhBatchFold
      by_cases hb : b ≤ p <;> simp [hb] <;> omega

lemma mhBatchFold_samples_eq_states (target : ℝ → ℝ) (b p : ℕ) (hbp : b ≤ p)
    (draws : List MHDraw) (st : MHLoopState)
    (hst : st.samples = st.states) :
    (draws.foldl (mhBatchFold target b p) st).samples =
      (draws.foldl (mhBatchFold target b p) st).states := by
  induction draws generalizing st with
  | nil => simpa using hst
  | cons d rest ih =>
      rw [List.foldl_cons]
      exact ih _ (by simp [mhBatchFold, hbp, hst])

lemma mhBatchFold_samples_of_lt (target : ℝ → ℝ) (b p : ℕ) (hbp : p < b)
    (draws : List MHDraw) (st : MHLoopState) :
    (draws.foldl (mhBatchFold target b p) st).samples = st.samples := by
  induction draws generalizing st with
  | nil => rfl
  | cons d rest ih =>
      rw [List.foldl_cons, ih]
      simp [mhBatchFold, Nat.not_le.mpr hbp]

/-- C3 (amended): the trial count actually run is the requested count plus
the burn-in length; every step of a batch records its (possibly unchanged)
state into the trace buffer; and a step adds its state to the
retained-for-statistics pool exactly when the global iteration counter the
batch was started with is at least (greater than or equal to, not strictly
greater than) the configured burn-in length. -/
theorem C3_burnin_amended :
    (∀ n_simulations burn_in : ℕ,
      mh_adjusted_n_simulations n_simulations burn_in =
        n_simulations + burn_in) ∧
    (∀ (target : ℝ → ℝ) (b p : ℕ) (x0 : ℝ) (draws : List MHDraw),
      (mh_simulate_batch target b p x0 draws).states.length = draws.length ∧
      (mh_simulate_batch target b p x0 draws).total_proposed = draws.length) ∧
    (∀ (target : ℝ → ℝ) (b p : ℕ) (x0 : ℝ) (draws : List MHDraw), b ≤ p →
      (mh_simulate_batch target b p x0 draws).samples =
        (mh_simulate_batch target b p x0 draws).states) ∧
    (∀ (target : ℝ → ℝ) (b p : ℕ) (x0 : ℝ) (draws : List MHDraw), p < b →
      (mh_simulate_batch target b p x0 draws).samples = []) := by
  refine ⟨fun n b => rfl, fun target b p x0 draws => ?_,
    fun target b p x0 draws hbp => ?_, fun target b p x0 draws hbp => ?_⟩
  · constructor
    · unfold mh_simulate_batch
      rw [mhBatchFold_states_length]
      simp
    · rfl
  · unfold mh_simulate_batch
    exact mhBatchFold_samples_eq_states target b p hbp draws _ rfl
  · unfold mh_simulate_batch
    exact mhBatchFold_samples_of_lt target b p hbp draws _

/-- C3 counterexample: with burn-in 2 and a batch started at global
iteration counter exactly 2, the code adds the step state to the pool, yet
the counter does not strictly exceed the burn-in length, refuting the
claimed strict-exceedance condition. -/
theorem C3_burnin_counterexample :
    (mh_simulate_batch (target_density .normal) 2 2 0
        [⟨1, 1 / 2⟩]).samples.length = 1 ∧
    ¬ ((2 : ℕ) > 2) := by
  constructor
  · simp [mh_simulate_batch, mhBatchFold]
  · omega

/-- C3 witness: the amended theorem applied at concrete batches on both
sides of the burn-in boundary. -/
theorem C3_burnin_witness :
    mh_adjusted_n_simulations 10000 1000 = 11000 ∧
    (mh_simulate_batch (target_density .normal) 5 7 0
        [⟨1, 1 / 2⟩, ⟨-1, 1 / 3⟩]).samples =
      (mh_simulate_batch (target_density .normal) 5 7 0
        [⟨1, 1 / 2⟩, ⟨-1, 1 / 3⟩]).states ∧
    (mh_simulate_batch (target_density .normal) 5 3 0
        [⟨1, 1 / 2⟩, ⟨-1, 1 / 3⟩]).samples = [] := by
  exact ⟨C3_burnin_amended.1 10000 1000,
    C3_burnin_amended.2.2.1 _ 5 7 0 _ (by norm_num),
    C3_burnin_amended.2.2.2 _ 5 3 0 _ (by norm_num)⟩

/-- C4 (amended): a Metropolis-Hastings step whose proposed density is at
least the current density always moves to the proposed state provided the
proposed density is positive; when the proposed density is zero (in
particular when both densities are zero, which the original claim also
covered) the proposal is always rejected and the state is unchanged. -/
theorem C4_mh_acceptance_amended (d : DistributionType)
    (current noise u : ℝ) (hu0 : 0 ≤ u) (hu1 : u < 1) :
    (target_density d current ≤ target_density d (current + noise) →
      0 < target_density d (current + noise) →
      mhStepRun (target_density d) current ⟨noise, u⟩ =
        (current + noise, true)) ∧
    (target_density d (current + noise) = 0 →
      mhStepRun (target_density d) current ⟨noise, u⟩ = (current, false)) := by
  constructor
  · intro hle hpd
    simp only [mhStepRun]
    by_cases hcd : 0 < target_density d current
    · have hrho : (1 : ℝ) ≤ target_density d (current + noise) /
          target_density d current := (one_le_div hcd).mpr hle
      rw [if_pos hcd, if_pos (lt_of_lt_of_le hu1 hrho)]
    · rw [if_neg hcd, if_pos hpd, if_pos hu1]
  · intro hpd
    simp only [mhStepRun]
    by_cases hcd : 0 < target_density d current
    · rw [if_pos hcd, hpd, zero_div,
        if_neg (not_lt.mpr hu0)]
    · rw [if_neg hcd, hpd, if_neg (lt_irrefl 0), if_neg (not_lt.mpr hu0)]

/-- C4 counterexample: with the gamma target, current state -1 and proposed
state -1/2 both have density zero, so the proposed density is greater than
or equal to the current one, yet the move is rejected and the chain stays
at -1 instead of moving to the proposed -1/2. -/
theorem C4_mh_acceptance_counterexample :
    target_density .gamma (-1) ≤ target_density .gamma (-1 + 1 / 2) ∧
    mhStepRun (target_density .gamma) (-1) ⟨1 / 2, 1 / 2⟩ = (-1, false) ∧
    ((-1 : ℝ) + 1 / 2) ≠ -1 := by
  have hc : target_density .gamma (-1) = 0 := by
    rw [target_density, if_neg (by norm_num : ¬ ((0 : ℝ) < -1))]
  have hp : target_density .gamma (-1 + 1 / 2) = 0 := by
    rw [target_density, if_neg (by norm_num : ¬ ((0 : ℝ) < -1 + 1 / 2))]
  refine ⟨by rw [hc, hp], ?_, by norm_num⟩
  simp only [mhStepRun]
  rw [show (-1 : ℝ) + (MHDraw.mk (1 / 2) (1 / 2)).noise = -1 + 1 / 2 from rfl,
    hp, hc, if_neg (lt_irrefl 0), if_neg (lt_irrefl 0),
    if_neg (by norm_num : ¬ ((1 : ℝ) / 2 < 0))]

/-- C4 witness: the amended theorem applied with the normal target (always
accepted when the density does not decrease) and the gamma target (always
rejected into an unchanged state when the proposed density is zero). -/
theorem C4_mh_acceptance_witness :
    mhStepRun (target_density .normal) 0 ⟨0, 1 / 2⟩ = (0 + 0, true) ∧
    mhStepRun (target_density .gamma) (-3) ⟨1, 1 / 2⟩ = (-3, false) := by
  constructor
  · refine (C4_mh_acceptance_amended .normal 0 0 (1 / 2) (by norm_num)
      (by norm_num)).1 (by norm_num) ?_
    rw [target_density]
    positivity
  · refine (C4_mh_acceptance_amended .gamma (-3) 1 (1 / 2) (by norm_num)
      (by norm_num)).2 ?_
    rw [target_density, if_neg (by norm_num : ¬ ((0 : ℝ) < -3 + 1))]

/-! ## Constructor validation (C6)

The four estimator constructors receive a name string.  MonteCarloIntegration,
MarkovChain and HypothesisTesting raise ValueError on an unrecognized name;
OptionPricing.__init__ merely lowercases option_type and stores it, with no
membership check (simulate_batch later treats everything that is not
exactly "call" as a put). -/

def integration_function_names : List String :=
  ["gaussian", "sine", "polynomial", "exponential", "reciprocal"]

def target_distribution_names : List String :=
  ["normal", "gamma", "beta", "bimodal", "cauchy", "exponential"]

def hypothesis_test_type_names : List String :=
  ["two-sided", "right-tailed", "left-tailed"]

/-- MonteCarloIntegration.__init__: the function name must be a key of the
functions table, otherwise ValueError (an InvalidParameter condition). -/
def mkMonteCarloIntegration (function_type : String) : Except String String :=
  if function_type ∈ integration_function_names then .ok function_type
  else .error "InvalidParameter"

/-- MarkovChain.__init__: the distribution name must be a key of the
target_distributions table, otherwise ValueError; on success the stored
trial count is the requested one inflated by the burn-in length. -/
def mkMarkovChain (distribution_type : String)
    (n_simulations burn_in : ℕ) : Except String (String × ℕ) :=
  if distribution_type ∈ target_distribution_names then
    .ok (distribution_type, mh_adjusted_n_simulations n_simulations burn_in)
  else .error "InvalidParameter"

/-- HypothesisTesting.__init__: the if/elif chain on test_type raises
ValueError in its final else branch. -/
def mkHypothesisTesting (test_type : String) : Except String String :=
  if test_type = "two-sided" then .ok test_type
  else if test_type = "right-tailed" then .ok test_type
  else if test_type = "left-tailed" then .ok test_type
  else .error "InvalidParameter"

/-- OptionPricing.__init__: option_type.lower() is stored unconditionally;
there is no validation and construction always succeeds. -/
def mkOptionPricing (option_type : String) : Except String String :=
  .ok option_type.toLower

/-- C6 (amended): the integration, Markov-chain and hypothesis-testing
constructors fail fast with an invalid-parameter error exactly on a name
outside their fixed tables, before any batch executes; the option-pricing
constructor, however, accepts every string, storing its lowercased form
(anything other than call is later priced as a put), so an unrecognized
option type does not fail at construction. -/
theorem C6_validation_amended :
    (∀ s : String, s ∉ integration_function_names →
        mkMonteCarloIntegration s = .error "InvalidParameter") ∧
    (∀ s : String, s ∈ integration_function_names →
        mkMonteCarloIntegration s = .ok s) ∧
    (∀ (s : String) (n b : ℕ), s ∉ target_distribution_names →
        mkMarkovChain s n b = .error "InvalidParameter") ∧
    (∀ (s : String) (n b : ℕ), s ∈ target_distribution_names →
        mkMarkovChain s n b = .ok (s, n + b)) ∧
    (∀ s : String, s ∉ hypothesis_test_type_names →
        mkHypothesisTesting s = .error "InvalidParameter") ∧
    (∀ s : String, s ∈ hypothesis_test_type_names →
        mkHypothesisTesting s = .ok s) ∧
    (∀ s : String, mkOptionPricing s = .ok s.toLower) := by
  refine ⟨fun s hs => ?_, fun s hs => ?_, fun s n b hs => ?_,
    fun s n b hs => ?_, fun s hs => ?_, fun s hs => ?_, fun s => rfl⟩
  · simp [mkMonteCarloIntegration, hs]
  · simp [mkMonteCarloIntegration, hs]
  · simp [mkMarkovChain, hs]
  · simp [mkMarkovChain, hs, mh_adjusted_n_simulations]
  · have h1 : s ≠ "two-sided" := fun h => hs (by simp [hypothesis_test_type_names, h])
    have h2 : s ≠ "right-tailed" := fun h => hs (by simp [hypothesis_test_type_names, h])
    have h3 : s ≠ "left-tailed" := fun h => hs (by simp [hypothesis_test_type_names, h])
    simp [mkHypothesisTesting, h1, h2, h3]
  · simp only [hypothesis_test_type_names, List.mem_cons,
      List.mem_singleton, List.not_mem_nil, or_false] at hs
    rcases hs with h | h | h <;> simp [mkHypothesisTesting, h]

/-- C6 counterexample: the string banana is not a recognized option type,
yet the option-pricing constructor succeeds instead of failing. -/
theorem C6_validation_counterexample :
    mkOptionPricing "banana" ≠ .error "InvalidParameter" ∧
    mkOptionPricing "banana" = .ok "banana".toLower ∧
    "banana" ∉ ["call", "put"] := by
  refine ⟨?_, rfl, by decide⟩
  simp [mkOptionPricing]

/-- C6 witness: the amended theorem applied at concrete names. -/
theorem C6_validation_witness :
    mkMonteCarloIntegration "fourier" = .error "InvalidParameter" ∧
    mkMonteCarloIntegration "sine" = .ok "sine" ∧
    mkMarkovChain "weibull" 10000 1000 = .error "InvalidParameter" ∧
    mkMarkovChain "normal" 10000 1000 = .ok ("normal", 11000) ∧
    mkHypothesisTesting "paired" = .error "InvalidParameter" ∧
    mkHypothesisTesting "left-tailed" = .ok "left-tailed" ∧
    mkOptionPricing "CALL" = .ok "CALL".toLower := by
  exact ⟨C6_validation_amended.1 _ (by decide),
    C6_validation_amended.2.1 _ (by decide),
    C6_validation_amended.2.2.1 _ 10000 1000 (by decide),
    C6_validation_amended.2.2.2.1 _ 10000 1000 (by decide),
    C6_validation_amended.2.2.2.2.1 _ (by decide),
    C6_validation_amended.2.2.2.2.2.1 _ (by decide),
    C6_validation_amended.2.2.2.2.2.2 "CALL"⟩

/-! ## Analytical reference value of the integral estimator (C9)

MonteCarloIntegration._get_analytical_result.  The lower and upper bounds
are Python floats and may be -numpy.inf or numpy.inf, which the gaussian
branch tests for explicitly, so a bound is embedded as finite-or-infinite;
float results are a real value, an infinity or nan, and the few IEEE
operations the method can perform on infinite bounds are modelled
case by case. -/

inductive FunctionType
  | gaussian | sine | polynomial | exponential | reciprocal
deriving DecidableEq

/-- A Python float used as an integration bound: finite, -inf or inf. -/
inductive FloatBound
  | negInf
  | fin (x : ℚ)
  | posInf
deriving DecidableEq

/-- An IEEE float result: a real value, an infinity, or nan. -/
inductive FloatVal
  | real (x : ℝ)
  | posInf
  | negInf
  | nan

def fvalNeg : FloatVal → FloatVal
  | .real x => .real (-x)
  | .posInf => .negInf
  | .negInf => .posInf
  | .nan => .nan

def fvalAdd : FloatVal → FloatVal → FloatVal
  | .nan, _ => .nan
  | _, .nan => .nan
  | .real x, .real y => .real (x + y)
  | .real _, .posInf => .posInf
  | .real _, .negInf => .negInf
  | .posInf, .real _ => .posInf
  | .negInf, .real _ => .negInf
  | .posInf, .posInf => .posInf
  | .posInf, .negInf => .nan
  | .negInf, .posInf => .nan
  | .negInf, .negInf => .negInf

def fvalSub (a b : FloatVal) : FloatVal := fvalAdd a (fvalNeg b)

/-- The polynomial antiderivative b^4/4 - 2 b^3/3 + b^2/2 evaluated on a
bound in float arithmetic: at inf the three terms are inf - inf + inf,
giving nan; at -inf they are inf - (-inf) + inf, giving inf. -/
noncomputable def polyAntiderivF : FloatBound → FloatVal
  | .fin q => .real ((q : ℝ) ^ 4 / 4 - 2 * (q : ℝ) ^ 3 / 3 + (q : ℝ) ^ 2 / 2)
  | .posInf => .nan
  | .negInf => .posInf

/-- numpy.cos on a bound: nan at both infinities. -/
noncomputable def cosF : FloatBound → FloatVal
  | .fin q => .real (Real.cos (q : ℝ))
  | .posInf => .nan
  | .negInf => .nan

/-- MonteCarloIntegration._get_analytical_result: the closed-form value for
the polynomial and sine integrands, sqrt(pi) for the gaussian integrand
over (-inf, inf), and None otherwise. -/
noncomputable def get_analytical_result (function_type : FunctionType)
    (lower_bound upper_bound : FloatBound) : Option FloatVal :=
  match function_type with
  | .polynomial =>
      some (fvalSub (polyAntiderivF upper_bound) (polyAntiderivF lower_bound))
  | .sine =>
      some (fvalAdd (fvalNeg (cosF upper_bound)) (cosF lower_bound))
  | .gaussian =>
      if lower_bound = .negInf ∧ upper_bound = .posInf then
        some (.real (Real.sqrt Real.pi))
      else none
  | _ => none

/-- C9 (amended): the integral estimator reports the closed-form
antiderivative value for the polynomial and sine integrands at every bound
combination, reports sqrt(pi) for the gaussian integrand exactly when both
bounds are infinite (lower -inf and upper inf), and reports no reference
value in every remaining integrand and bound combination. -/
theorem C9_analytical_amended :
    (∀ a b : ℚ,
      get_analytical_result .polynomial (.fin a) (.fin b) =
        some (.real (((b : ℝ) ^ 4 / 4 - 2 * (b : ℝ) ^ 3 / 3 + (b : ℝ) ^ 2 / 2) -
          ((a : ℝ) ^ 4 / 4 - 2 * (a : ℝ) ^ 3 / 3 + (a : ℝ) ^ 2 / 2))) ∧
      get_analytical_result .sine (.fin a) (.fin b) =
        some (.real (-Real.cos (b : ℝ) + Real.cos (a : ℝ)))) ∧
    (∀ (ft : FunctionType) (lo hi : FloatBound),
      ft ≠ .polynomial → ft ≠ .sine →
      (get_analytical_result ft lo hi = none ↔
        ¬ (ft = .gaussian ∧ lo = .negInf ∧ hi = .posInf))) := by
  constructor
  · intro a b
    constructor
    · simp [get_analytical_result, polyAntiderivF, fvalSub, fvalNeg, fvalAdd]
      ring
    · simp [get_analytical_result, cosF, fvalNeg, fvalAdd]
  · intro ft lo hi hp hs
    cases ft with
    | polynomial => exact absurd rfl hp
    | sine => exact absurd rfl hs
    | gaussian =>
        by_cases h : lo = FloatBound.negInf ∧ hi = FloatBound.posInf
        · simp [get_analytical_result, h]
        · simp [get_analytical_result, h]
    | exponential => simp [get_analytical_result]
    | reciprocal => simp [get_analytical_result]

/-- C9 counterexample: the gaussian integrand with bounds (-inf, inf)
reports the reference value sqrt(pi), refuting the claim that only the
polynomial and sine integrands ever report one. -/
theorem C9_analytical_counterexample :
    get_analytical_result .gaussian .negInf .posInf =
      some (.real (Real.sqrt Real.pi)) ∧
    get_analytical_result .gaussian .negInf .posInf ≠ none := by
  constructor
  · simp [get_analytical_result]
  · simp [get_analytical_result]

/-- C9 witness: the amended theorem applied at concrete integrands and
bounds. -/
theorem C9_analytical_witness :
    get_analytical_result .sine (.fin 0) (.fin 1) =
      some (.real (-Real.cos (1 : ℚ) + Real.cos (0 : ℚ))) ∧
    get_analytical_result .reciprocal (.fin 0) (.fin 1) = none ∧
    get_analytical_result .gaussian (.fin 0) (.fin 1) = none := by
  refine ⟨(C9_analytical_amended.1 0 1).2, ?_, ?_⟩
  · exact (C9_analytical_amended.2 .reciprocal (.fin 0) (.fin 1)
      (by decide) (by decide)).mpr (by simp)
  · exact (C9_analytical_amended.2 .gaussian (.fin 0) (.fin 1)
      (by decide) (by decide)).mpr (by simp)

/-! ## Value at Risk statistics (C8)

ValueAtRisk.calculate_statistics, lines computing the VaR percentile and
the Expected Shortfall.  numpy.percentile with the default linear
interpolation is modelled exactly over the rationals. -/

/-- numpy.percentile(xs, p) with linear interpolation: sort ascending, take
rank = p (n - 1) / 100, and interpolate between the two neighbouring order
statistics. -/
def percentile (xs : List ℚ) (p : ℚ) : ℚ :=
  let s := xs.mergeSort (fun a b => decide (a ≤ b))
  let n := xs.length
  if n = 0 then 0
  else
    let rank := p * ((n : ℚ) - 1) / 100
    let lo := (Int.floor rank).toNat
    if lo + 1 < n then
      s.getD lo 0 + (rank - (lo : ℚ)) * (s.getD (lo + 1) 0 - s.getD lo 0)
    else s.getD (n - 1) 0

/-- The VaR estimate of calculate_statistics: the loss percentile at
100 - (1 - confidence_level) * 100. -/
def var_estimate (losses : List ℚ) (confidence_level : ℚ) : ℚ :=
  percentile losses (100 - (1 - confidence_level) * 100)

/-- The Expected Shortfall of calculate_statistics: the mean of the losses
strictly above the VaR estimate, or the VaR estimate itself when none
exceed it. -/
def expected_shortfall (losses : List ℚ) (confidence_level : ℚ) : ℚ :=
  let v := var_estimate losses confidence_level
  let tail := losses.filter (fun l => v < l)
  if tail.length = 0 then v else listMean tail

lemma length_mul_le_sum (l : List ℚ) (v : ℚ) (h : ∀ x ∈ l, v ≤ x) :
    (l.length : ℚ) * v ≤ l.sum := by
  induction l with
  | nil => simp
  | cons x rest ih =>
      have hx : v ≤ x := h x (List.mem_cons_self x rest)
      have hr : (rest.length : ℚ) * v ≤ rest.sum :=
        ih (fun y hy => h y (List.mem_cons_of_mem x hy))
      have hc : ((x :: rest).length : ℚ) = (rest.length : ℚ) + 1 := by
        push_cast [List.length_cons]
        ring
      rw [hc, List.sum_cons, add_mul, one_mul]
      linarith

lemma le_listMean_of_forall_le (l : List ℚ) (v : ℚ) (hne : l ≠ [])
    (h : ∀ x ∈ l, v ≤ x) : v ≤ listMean l := by
  have hlen : (0 : ℚ) < l.length := by
    have := List.length_pos.mpr hne
    exact_mod_cast this
  rw [listMean, le_div_iff₀ hlen, mul_comm]
  exact length_mul_le_sum l v h

/-- C8: for every nonempty accumulated loss sample (and any confidence
level), the Expected Shortfall reported by calculate_statistics is the mean
of the losses strictly exceeding the VaR estimate when that set is
nonempty, the VaR estimate itself otherwise, and in either case it is at
least the VaR estimate. -/
theorem C8_expected_shortfall (losses : List ℚ) (confidence_level : ℚ)
    (_hne : losses ≠ []) :
    (losses.filter
        (fun l => var_estimate losses confidence_level < l) ≠ [] →
      expected_shortfall losses confidence_level =
        listMean (losses.filter
          (fun l => var_estimate losses confidence_level < l))) ∧
    (losses.filter
        (fun l => var_estimate losses confidence_level < l) = [] →
      expected_shortfall losses confidence_level =
        var_estimate losses confidence_level) ∧
    var_estimate losses confidence_level ≤
      expected_shortfall losses confidence_level := by
  set v := var_estimate losses confidence_level with hv
  refine ⟨fun htail => ?_, fun htail => ?_, ?_⟩
  · simp [expected_shortfall, ← hv, List.length_eq_zero, htail]
  · simp [expected_shortfall, ← hv, List.length_eq_zero, htail]
  · by_cases htail : losses.filter (fun l => v < l) = []
    · simp [expected_shortfall, ← hv, List.length_eq_zero, htail]
    · have : expected_shortfall losses confidence_level =
          listMean (losses.filter (fun l => v < l)) := by
        simp [expected_shortfall, ← hv, List.length_eq_zero, htail]
      rw [this]
      refine le_listMean_of_forall_le _ v htail (fun x hx => ?_)
      exact le_of_lt (by simpa using (List.mem_filter.mp hx).2)

/-- C8 witness: the theorem applied to a concrete loss sample at the 95
percent confidence level. -/
theorem C8_expected_shortfall_witness :
    var_estimate [1, 5, 2, 4, 3] (95 / 100) ≤
      expected_shortfall [1, 5, 2, 4, 3] (95 / 100) := by
  exact (C8_expected_shortfall [1, 5, 2, 4, 3] (95 / 100) (by simp)).2.2

/-! ## Pi estimation (C10)

PiEstimation.  A batch is the list of uniform draws in the square; the
random subset the code keeps for visualization is modelled by an arbitrary
permutation oracle applied before taking the computed sample size. -/

structure PiResults where
  inside_circle : ℕ
  total_points : ℕ
  sample_points : List (ℚ × ℚ)

def max_viz_points : ℕ := 5000

/-- PiEstimation.simulate_batch on the list of drawn points: count the
points with squared distance at most 1, record the batch size, and keep a
random subset of at most min(100, batch_size, 5000 - stored) points for
visualization while fewer than 5000 are stored. -/
def piSimulateBatch (perm : List (ℚ × ℚ) → List (ℚ × ℚ))
    (points : List (ℚ × ℚ)) (current_viz_count : ℕ) : PiResults :=
  let inside := (points.filter (fun p => p.1 ^ 2 + p.2 ^ 2 ≤ 1)).length
  let sample_points :=
    if current_viz_count < max_viz_points then
      (perm points).take
        (min 100 (min points.length (max_viz_points - current_viz_count)))
    else []
  { inside_circle := inside
    total_points := points.length
    sample_points := sample_points }

/-- BaseSimulation.update_results on the pi result dictionary: integers
add, the visualization list is extended. -/
def piMerge (res b : PiResults) : PiResults :=
  { inside_circle := res.inside_circle + b.inside_circle
    total_points := res.total_points + b.total_points
    sample_points := res.sample_points ++ b.sample_points }

def piInitResults : PiResults :=
  { inside_circle := 0, total_points := 0, sample_points := [] }

/-- The accumulated pi state after a list of batches, each batch merged by
update_results with the visualization guard evaluated against the stored
length. -/
def piRun (perm : List (ℚ × ℚ) → List (ℚ × ℚ))
    (batches : List (List (ℚ × ℚ))) : PiResults :=
  batches.foldl
    (fun res pts =>
      piMerge res (piSimulateBatch perm pts res.sample_points.length))
    piInitResults

structure PiStats where
  estimate : ℝ
  std_error : ℝ

/-- PiEstimation.calculate_statistics: p = inside/total, estimate 4p,
std_error 4 sqrt(p (1 - p) / total); zeros when no point has been run. -/
noncomputable def pi_calculate_statistics (res : PiResults) : PiStats :=
  if res.total_points = 0 then { estimate := 0, std_error := 0 }
  else
    let p : ℝ := (res.inside_circle : ℝ) / (res.total_points : ℝ)
    { estimate := 4 * p
      std_error := 4 * Real.sqrt (p * (1 - p) / (res.total_points : ℝ)) }

lemma piRun_inside_le_total (perm : List (ℚ × ℚ) → List (ℚ × ℚ))
    (batches : List (List (ℚ × ℚ))) :
    (piRun perm batches).inside_circle ≤ (piRun perm batches).total_points := by
  suffices h : ∀ (bs : List (List (ℚ × ℚ))) (res : PiResults),
      res.inside_circle ≤ res.total_points →
      ((bs.foldl (fun res pts =>
          piMerge res (piSimulateBatch perm pts res.sample_points.length))
        res).inside_circle ≤
        (bs.foldl (fun res pts =>
          piMerge res (piSimulateBatch perm pts res.sample_points.length))
        res).total_points) by
    exact h batches piInitResults le_rfl
  intro bs
  induction bs with
  | nil => intro res h; simpa using h
  | cons pts rest ih =>
      intro res h
      refine ih _ ?_
      have hb : (piSimulateBatch perm pts
          res.sample_points.length).inside_circle ≤
          (piSimulateBatch perm pts res.sample_points.length).total_points :=
        List.length_filter_le _ _
      exact Nat.add_le_add h hb

lemma piRun_total_points (perm : List (ℚ × ℚ) → List (ℚ × ℚ))
    (batches : List (List (ℚ × ℚ))) :
    (piRun perm batches).total_points = (batches.map List.length).sum := by
  suffices h : ∀ (bs : List (List (ℚ × ℚ))) (res : PiResults),
      (bs.foldl (fun res pts =>
          piMerge res (piSimulateBatch perm pts res.sample_points.length))
        res).total_points = res.total_points + (bs.map List.length).sum by
    simpa [piInitResults] using h batches piInitResults
  intro bs
  induction bs with
  | nil => intro res; simp
  | cons pts rest ih =>
      intro res
      rw [List.foldl_cons, ih]
      simp [piMerge, piSimulateBatch]
      omega

/-- C10: for every reachable accumulated pi state with at least one
nonempty completed batch, calculate_statistics returns
estimate = 4 (inside/total) with inside at most total, the estimate lies
in the interval from 0 to 4, and std_error = 4 sqrt(p (1 - p) / total). -/
theorem C10_pi_statistics (perm : List (ℚ × ℚ) → List (ℚ × ℚ))
    (batches : List (List (ℚ × ℚ))) (hne : ∃ b ∈ batches, b ≠ []) :
    (piRun perm batches).inside_circle ≤ (piRun perm batches).total_points ∧
    (pi_calculate_statistics (piRun perm batches)).estimate =
      4 * (((piRun perm batches).inside_circle : ℝ) /
        ((piRun perm batches).total_points : ℝ)) ∧
    0 ≤ (pi_calculate_statistics (piRun perm batches)).estimate ∧
    (pi_calculate_statistics (piRun perm batches)).estimate ≤ 4 ∧
    (pi_calculate_statistics (piRun perm batches)).std_error =
      4 * Real.sqrt ((((piRun perm batches).inside_circle : ℝ) /
          ((piRun perm batches).total_points : ℝ)) *
        (1 - ((piRun perm batches).inside_circle : ℝ) /
          ((piRun perm batches).total_points : ℝ)) /
        ((piRun perm batches).total_points : ℝ)) := by
  have htot : (piRun perm batches).total_points ≠ 0 := by
    obtain ⟨b, hb, hbne⟩ := hne
    rw [piRun_total_points]
    have hmem : b.length ∈ batches.map List.length := List.mem_map_of_mem _ hb
    have hpos : 0 < b.length := List.length_pos.mpr hbne
    have hle : b.length ≤ (batches.map List.length).sum :=
      List.single_le_sum (fun x _ => Nat.zero_le x) _ hmem
    omega
  have hils := piRun_inside_le_total perm batches
  have htotR : (0 : ℝ) < ((piRun perm batches).total_points : ℝ) := by
    exact_mod_cast Nat.pos_of_ne_zero htot
  have hp0 : (0 : ℝ) ≤ ((piRun perm batches).inside_circle : ℝ) /
      ((piRun perm batches).total_points : ℝ) :=
    div_nonneg (Nat.cast_nonneg _) (le_of_lt htotR)
  have hp1 : ((piRun perm batches).inside_circle : ℝ) /
      ((piRun perm batches).total_points : ℝ) ≤ 1 := by
    rw [div_le_one htotR]
    exact_mod_cast hils
  refine ⟨hils, ?_, ?_, ?_, ?_⟩ <;>
    simp only [pi_calculate_statistics, if_neg htot]
  · linarith [hp0]
  · linarith [hp1]

/-- C10 witness: the theorem applied to a concrete two-batch run. -/
theorem C10_pi_statistics_witness :
    0 ≤ (pi_calculate_statistics
      (piRun id [[(0, 0), (1, 1)], [(1, 0)]])).estimate ∧
    (pi_calculate_statistics
      (piRun id [[(0, 0), (1, 1)], [(1, 0)]])).estimate ≤ 4 := by
  have h := C10_pi_statistics id [[(0, 0), (1, 1)], [(1, 0)]]
    ⟨[(0, 0), (1, 1)], by simp, by simp⟩
  exact ⟨h.2.2.1, h.2.2.2.1⟩

/-! ## Batch contributions and the visualization caps (C5)

The remaining per-algorithm batch generators whose sequence fields carry a
storage cap: MonteCarloIntegration (sample_points, cap 1000), OptionPricing
(sample_paths, cap 100) and HypothesisTesting (p_values, test_statistics
and decisions, cap 5000).  The pi estimator above caps sample_points at
5000.  All caps are enforced at batch-generation time against the length
currently stored in the accumulator; update_results itself merges by adding
numeric fields and extending list fields unconditionally. -/

/-- The five integrands of MonteCarloIntegration. -/
noncomputable def integrand : FunctionType → ℝ → ℝ
  | .gaussian, x => Real.exp (-x ^ 2)
  | .sine, x => Real.sin x
  | .polynomial, x => x ^ 3 - 2 * x ^ 2 + x
  | .exponential, x => Real.exp (-|x|)
  | .reciprocal, x => 1 / (1 + x ^ 2)

structure IntegrationResults where
  fsum : ℝ
  sum_squared : ℝ
  count : ℕ
  sample_points : List (ℚ × ℝ)

/-- MonteCarloIntegration.simulate_batch on the list of drawn abscissas:
sum and squared sum of the integrand values, the batch size, and a random
subset of at most min(50, batch_size, 1000 - stored) sample pairs while
fewer than 1000 are stored. -/
noncomputable def integrationSimulateBatch (ft : FunctionType)
    (perm : List ℚ → List ℚ) (x_values : List ℚ)
    (current_count : ℕ) : IntegrationResults :=
  let y := fun x : ℚ => integrand ft (x : ℝ)
  let sample_points :=
    if current_count < 1000 then
      ((perm x_values).take
        (min 50 (min x_values.length (1000 - current_count)))).map
        (fun x => (x, y x))
    else []
  { fsum := (x_values.map y).sum
    sum_squared := (x_values.map (fun x => (y x) ^ 2)).sum
    count := x_values.length
    sample_points := sample_points }

/-- update_results on the integration dictionary. -/
def integrationMerge (res b : IntegrationResults) : IntegrationResults :=
  { fsum := res.fsum + b.fsum
    sum_squared := res.sum_squared + b.sum_squared
    count := res.count + b.count
    sample_points := res.sample_points ++ b.sample_points }

noncomputable def integrationRun (ft : FunctionType)
    (perm : List ℚ → List ℚ) (batches : List (List ℚ)) :
    IntegrationResults :=
  batches.foldl
    (fun res xs =>
      integrationMerge res
        (integrationSimulateBatch ft perm xs res.sample_points.length))
    { fsum := 0, sum_squared := 0, count := 0, sample_points := [] }

structure OPResults (P : Type) where
  payoff_sum : ℝ
  payoff_sum_squared : ℝ
  count : ℕ
  sample_paths : List P

/-- OptionPricing.simulate_batch on the list of standard-normal shocks:
terminal prices S0 exp(drift + diffusion Z), call or put payoffs,
discounting, and at most min(10, batch_size, 100 - stored) freshly
generated display paths while fewer than 100 are stored.  The multi-step
paths use their own random draws, so their contents are opaque here: the
path generator is an oracle producing the i-th path of the batch. -/
noncomputable def opSimulateBatch {P : Type} (path_gen : ℕ → P)
    (S0 K discount_factor drift diffusion : ℝ) (is_call : Bool)
    (Z : List ℝ) (stored_paths : ℕ) : OPResults P :=
  let ST := Z.map (fun z => S0 * Real.exp (drift + diffusion * z))
  let payoffs := ST.map
    (fun st => if is_call then max (st - K) 0 else max (K - st) 0)
  let discounted := payoffs.map (fun p => p * discount_factor)
  let sample_paths :=
    if stored_paths < 100 then
      (List.range (min 10 (min Z.length (100 - stored_paths)))).map path_gen
    else []
  { payoff_sum := discounted.sum
    payoff_sum_squared := (discounted.map (fun x => x ^ 2)).sum
    count := Z.length
    sample_paths := sample_paths }

def opMerge {P : Type} (res b : OPResults P) : OPResults P :=
  { payoff_sum := res.payoff_sum + b.payoff_sum
    payoff_sum_squared := res.payoff_sum_squared + b.payoff_sum_squared
    count := res.count + b.count
    sample_paths := res.sample_paths ++ b.sample_paths }

noncomputable def opRun {P : Type} (path_gen : ℕ → P)
    (S0 K discount_factor drift diffusion : ℝ) (is_call : Bool)
    (batches : List (List ℝ)) : OPResults P :=
  batches.foldl
    (fun res z =>
      opMerge res
        (opSimulateBatch path_gen S0 K discount_factor drift diffusion
          is_call z res.sample_paths.length))
    { payoff_sum := 0, payoff_sum_squared := 0, count := 0,
      sample_paths := [] }

inductive TestType
  | twoSided | rightTailed | leftTailed
deriving DecidableEq

structure HTResults where
  reject_count : ℕ
  total_tests : ℕ
  p_values : List ℝ
  test_statistics : List ℝ
  decisions : List Bool

def htInitResults : HTResults :=
  { reject_count := 0, total_tests := 0, p_values := [],
    test_statistics := [], decisions := [] }

/-- One trial of the loop in HypothesisTesting.simulate_batch, with the
normal CDF as an oracle and the drawn sample mean as input: the z
statistic, the p-value and the rejection decision per test type; the three
visualization lists are appended per trial, but the guard compares the
length stored in the accumulator at batch start (it does not change during
the batch). -/
noncomputable def htTrialFold (Φ : ℝ → ℝ) (null_mean se critical_z : ℝ)
    (tt : TestType) (stored_p_count : ℕ) (acc : HTResults) (m : ℝ) :
    HTResults :=
  let z := (m - null_mean) / se
  let pr : ℝ × Bool :=
    match tt with
    | .twoSided => (2 * (1 - Φ |z|), critical_z < |z|)
    | .rightTailed => (1 - Φ z, critical_z < z)
    | .leftTailed => (Φ z, z < critical_z)
  let acc1 := if pr.2 then
      { acc with reject_count := acc.reject_count + 1 }
    else acc
  if stored_p_count < 5000 then
    { acc1 with
        p_values := acc1.p_values ++ [pr.1]
        test_statistics := acc1.test_statistics ++ [z]
        decisions := acc1.decisions ++ [pr.2] }
  else acc1

/-- HypothesisTesting.simulate_batch on the list of drawn sample means:
fold the per-trial step, then report the batch size as total_tests. -/
noncomputable def htSimulateBatch (Φ : ℝ → ℝ)
    (null_mean se critical_z : ℝ) (tt : TestType)
    (stored_p_count : ℕ) (sample_means : List ℝ) : HTResults :=
  let fin := sample_means.foldl
    (htTrialFold Φ null_mean se critical_z tt stored_p_count) htInitResults
  { fin with total_tests := sample_means.length }

/-- update_results on the hypothesis-testing dictionary. -/
def htMerge (res b : HTResults) : HTResults :=
  { reject_count := res.reject_count + b.reject_count
    total_tests := res.total_tests + b.total_tests
    p_values := res.p_values ++ b.p_values
    test_statistics := res.test_statistics ++ b.test_statistics
    decisions := res.decisions ++ b.decisions }

noncomputable def htRun (Φ : ℝ → ℝ) (null_mean se critical_z : ℝ)
    (tt : TestType) (batches : List (List ℝ)) : HTResults :=
  batches.foldl
    (fun res means =>
      htMerge res
        (htSimulateBatch Φ null_mean se critical_z tt
          res.p_values.length means))
    htInitResults

lemma htTrialFold_p_values_length (Φ : ℝ → ℝ)
    (null_mean se critical_z : ℝ) (tt : TestType) (stored_p_count : ℕ)
    (acc : HTResults) (m : ℝ) :
    (htTrialFold Φ null_mean se critical_z tt
        stored_p_count acc m).p_values.length =
      acc.p_values.length + (if stored_p_count < 5000 then 1 else 0) := by
  unfold htTrialFold
  by_cases hs : stored_p_count < 5000 <;>
    simp [hs, apply_ite HTResults.p_values]

lemma htSimulateBatch_p_values_length (Φ : ℝ → ℝ)
    (null_mean se critical_z : ℝ) (tt : TestType)
    (stored_p_count : ℕ) (sample_means : List ℝ) :
    (htSimulateBatch Φ null_mean se critical_z tt
        stored_p_count sample_means).p_values.length =
      if stored_p_count < 5000 then sample_means.length else 0 := by
  suffices h : ∀ (l : List ℝ) (acc : HTResults),
      ((l.foldl
        (htTrialFold Φ null_mean se critical_z tt stored_p_count)
        acc).p_values.length) =
      acc.p_values.length + (if stored_p_count < 5000 then l.length else 0) by
    by_cases hs : stored_p_count < 5000 <;>
      simp [htSimulateBatch, h, htInitResults, hs]
  intro l
  induction l with
  | nil => intro acc; simp
  | cons m rest ih =>
      intro acc
      rw [List.foldl_cons, ih, htTrialFold_p_values_length]
      by_cases hs : stored_p_count < 5000
      · simp only [if_pos hs, List.length_cons]
        omega
      · simp only [if_neg hs]

lemma htRun_p_values_le (Φ : ℝ → ℝ) (null_mean se critical_z : ℝ)
    (tt : TestType) (batches : List (List ℝ)) (B : ℕ)
    (hB : ∀ b ∈ batches, b.length ≤ B) :
    (htRun Φ null_mean se critical_z tt batches).p_values.length ≤
      4999 + B := by
  suffices h : ∀ (bs : List (List ℝ)) (res : HTResults),
      (∀ b ∈ bs, b.length ≤ B) →
      res.p_values.length ≤ 4999 + B →
      ((bs.foldl
        (fun res means =>
          htMerge res
            (htSimulateBatch Φ null_mean se critical_z tt
              res.p_values.length means))
        res).p_values.length) ≤ 4999 + B by
    exact h batches htInitResults hB (by simp [htInitResults])
  intro bs
  induction bs with
  | nil => intro res _ hres; simpa using hres
  | cons b rest ih =>
      intro res hb hres
      rw [List.foldl_cons]
      refine ih _ (fun x hx => hb x (List.mem_cons_of_mem _ hx)) ?_
      have hlen : (htMerge res
          (htSimulateBatch Φ null_mean se critical_z tt
            res.p_values.length b)).p_values.length =
          res.p_values.length +
            (if res.p_values.length < 5000 then b.length else 0) := by
        simp [htMerge, htSimulateBatch_p_values_length]
      rw [hlen]
      have hbB : b.length ≤ B := hb b (List.mem_cons_self _ _)
      by_cases hs : res.p_values.length < 5000
      · simp only [if_pos hs]
        omega
      · simp only [if_neg hs]
        omega

lemma piRun_sample_points_le (perm : List (ℚ × ℚ) → List (ℚ × ℚ))
    (batches : List (List (ℚ × ℚ))) :
    (piRun perm batches).sample_points.length ≤ max_viz_points := by
  suffices h : ∀ (bs : List (List (ℚ × ℚ))) (res : PiResults),
      res.sample_points.length ≤ max_viz_points →
      ((bs.foldl (fun res pts =>
          piMerge res (piSimulateBatch perm pts res.sample_points.length))
        res).sample_points.length) ≤ max_viz_points by
    exact h batches piInitResults (by simp [piInitResults, max_viz_points])
  intro bs
  induction bs with
  | nil => intro res hres; simpa using hres
  | cons pts rest ih =>
      intro res hres
      rw [List.foldl_cons]
      refine ih _ ?_
      simp only [piMerge, piSimulateBatch, List.length_append]
      by_cases hs : res.sample_points.length < max_viz_points
      · simp only [if_pos hs]
        have ht : ((perm pts).take
            (min 100 (min pts.length
              (max_viz_points - res.sample_points.length)))).length ≤
            max_viz_points - res.sample_points.length := by
          rw [List.length_take]
          omega
        omega
      · simp only [if_neg hs]
        simpa using hres

lemma integrationRun_sample_points_le (ft : FunctionType)
    (perm : List ℚ → List ℚ) (batches : List (List ℚ)) :
    (integrationRun ft perm batches).sample_points.length ≤ 1000 := by
  suffices h : ∀ (bs : List (List ℚ)) (res : IntegrationResults),
      res.sample_points.length ≤ 1000 →
      ((bs.foldl (fun res xs =>
          integrationMerge res
            (integrationSimulateBatch ft perm xs res.sample_points.length))
        res).sample_points.length) ≤ 1000 by
    exact h batches _ (by simp)
  intro bs
  induction bs with
  | nil => intro res hres; simpa using hres
  | cons xs rest ih =>
      intro res hres
      rw [List.foldl_cons]
      refine ih _ ?_
      simp only [integrationMerge, integrationSimulateBatch,
        List.length_append]
      by_cases hs : res.sample_points.length < 1000
      · simp only [if_pos hs]
        rw [List.length_map, List.length_take]
        omega
      · simp only [if_neg hs]
        simpa using hres

lemma opRun_sample_paths_le {P : Type} (path_gen : ℕ → P)
    (S0 K discount_factor drift diffusion : ℝ) (is_call : Bool)
    (batches : List (List ℝ)) :
    (opRun path_gen S0 K discount_factor drift diffusion is_call
      batches).sample_paths.length ≤ 100 := by
  suffices h : ∀ (bs : List (List ℝ)) (res : OPResults P),
      res.sample_paths.length ≤ 100 →
      ((bs.foldl (fun res z =>
          opMerge res
            (opSimulateBatch path_gen S0 K discount_factor drift diffusion
              is_call z res.sample_paths.length))
        res).sample_paths.length) ≤ 100 by
    exact h batches _ (by simp)
  intro bs
  induction bs with
  | nil => intro res hres; simpa using hres
  | cons z rest ih =>
      intro res hres
      rw [List.foldl_cons]
      refine ih _ ?_
      simp only [opMerge, opSimulateBatch, List.length_append]
      by_cases hs : res.sample_paths.length < 100
      · simp only [if_pos hs]
        rw [List.length_map, List.length_range]
        omega
      · simp only [if_neg hs]
        simpa using hres

/-- C5 (amended): update_results adds numeric fields and appends sequence
fields; the pi, integration and option-pricing visualization lists are
generated with the cap folded into the per-batch sample size, so their
stored lengths never exceed 5000, 1000 and 100; the hypothesis-testing
lists, however, are appended for a whole batch whenever the length stored
at batch start is below 5000 (nothing is appended once the cap is reached,
first-come-first-kept), so their stored length is only bounded by
4999 plus the largest batch size and can exceed the 5000 cap. -/
theorem C5_caps_amended :
    (∀ res b : HTResults,
      (htMerge res b).reject_count = res.reject_count + b.reject_count ∧
      (htMerge res b).total_tests = res.total_tests + b.total_tests ∧
      (htMerge res b).p_values = res.p_values ++ b.p_values) ∧
    (∀ res b : PiResults,
      (piMerge res b).inside_circle = res.inside_circle + b.inside_circle ∧
      (piMerge res b).total_points = res.total_points + b.total_points ∧
      (piMerge res b).sample_points = res.sample_points ++ b.sample_points) ∧
    (∀ (perm : List (ℚ × ℚ) → List (ℚ × ℚ))
        (batches : List (List (ℚ × ℚ))),
      (piRun perm batches).sample_points.length ≤ 5000) ∧
    (∀ (ft : FunctionType) (perm : List ℚ → List ℚ)
        (batches : List (List ℚ)),
      (integrationRun ft perm batches).sample_points.length ≤ 1000) ∧
    (∀ (P : Type) (path_gen : ℕ → P)
        (S0 K discount_factor drift diffusion : ℝ) (is_call : Bool)
        (batches : List (List ℝ)),
      (opRun path_gen S0 K discount_factor drift diffusion is_call
        batches).sample_paths.length ≤ 100) ∧
    (∀ (Φ : ℝ → ℝ) (null_mean se critical_z : ℝ) (tt : TestType)
        (stored : ℕ) (means : List ℝ), 5000 ≤ stored →
      (htSimulateBatch Φ null_mean se critical_z tt stored means).p_values
        = []) ∧
    (∀ (Φ : ℝ → ℝ) (null_mean se critical_z : ℝ) (tt : TestType)
        (batches : List (List ℝ)) (B : ℕ),
      (∀ b ∈ batches, b.length ≤ B) →
      (htRun Φ null_mean se critical_z tt batches).p_values.length ≤
        4999 + B) := by
  refine ⟨fun res b => ⟨rfl, rfl, rfl⟩, fun res b => ⟨rfl, rfl, rfl⟩,
    fun perm batches => piRun_sample_points_le perm batches,
    fun ft perm batches => integrationRun_sample_points_le ft perm batches,
    fun P path_gen S0 K df dr di ic batches =>
      opRun_sample_paths_le path_gen S0 K df dr di ic batches,
    fun Φ nm se cz tt stored means hs => ?_,
    fun Φ nm se cz tt batches B hB =>
      htRun_p_values_le Φ nm se cz tt batches B hB⟩
  have h := htSimulateBatch_p_values_length Φ nm se cz tt stored means
  rw [if_neg (Nat.not_lt.mpr hs)] at h
  exact List.length_eq_zero.mp h

/-- C5 counterexample: two hypothesis-testing batches of 3000 trials each
leave 6000 stored p-values, exceeding the 5000 cap, because the second
batch sees the stored length 3000 still below the cap and appends all its
items. -/
theorem C5_caps_counterexample :
    (htRun (fun x => x) 0 1 1 .rightTailed
      [List.replicate 3000 0, List.replicate 3000 0]).p_values.length =
      6000 ∧ 5000 < 6000 := by
  constructor
  · have hmergelen : ∀ r c : HTResults,
        (htMerge r c).p_values.length =
          r.p_values.length + c.p_values.length := by
      intro r c
      simp [htMerge]
    have hr1 : (htMerge htInitResults
        (htSimulateBatch (fun x => x) 0 1 1 .rightTailed
          htInitResults.p_values.length
          (List.replicate 3000 (0 : ℝ)))).p_values.length = 3000 := by
      rw [hmergelen, htSimulateBatch_p_values_length,
        show htInitResults.p_values.length = 0 from rfl,
        if_pos (by norm_num : (0 : ℕ) < 5000), List.length_replicate]
    rw [htRun, List.foldl_cons, List.foldl_cons, List.foldl_nil,
      hmergelen, hr1, htSimulateBatch_p_values_length,
      if_pos (by norm_num : (3000 : ℕ) < 5000), List.length_replicate]
  · omega

/-- C5 witness: the amended theorem applied at concrete runs. -/
theorem C5_caps_witness :
    (htMerge htInitResults htInitResults).total_tests = 0 + 0 ∧
    (piRun id [[(0, 0)]]).sample_points.length ≤ 5000 ∧
    (integrationRun .sine id [[0]]).sample_points.length ≤ 1000 ∧
    (opRun (fun _ => ()) 100 110 1 0 1 true [[0]]).sample_paths.length
      ≤ 100 ∧
    (htSimulateBatch (fun x => x) 0 1 1 .rightTailed 5000 [0]).p_values
      = [] ∧
    (htRun (fun x => x) 0 1 1 .rightTailed [[0]]).p_values.length ≤
      4999 + 1 := by
  exact ⟨(C5_caps_amended.1 htInitResults htInitResults).2.1,
    C5_caps_amended.2.2.1 id _,
    C5_caps_amended.2.2.2.1 .sine id _,
    C5_caps_amended.2.2.2.2.1 Unit (fun _ => ()) 100 110 1 0 1 true _,
    C5_caps_amended.2.2.2.2.2.1 (fun x => x) 0 1 1 .rightTailed 5000 [0]
      le_rfl,
    C5_caps_amended.2.2.2.2.2.2 (fun x => x) 0 1 1 .rightTailed [[0]] 1
      (by simp)⟩

end MonteCarloDashboard
